import Mathlib

/-!
# Verification of the aem-boilerplate-xwalk fragment loader and utilities

A shallow embedding of the routines specified for this repository:
the fragment loader (`loadFragment`), the class-name normalizer
(`toClassName`), the attribute-migration helper (`moveAttributes`) and
the footer decorator (`footerDecorate`), together with proofs of the
repository's testable properties.

The repository under verification ships only the Jest test suites for
these routines; the implementation modules (`blocks/fragment/fragment.js`,
`scripts/aem.js`, `scripts/scripts.js`, `blocks/footer/footer.js`) are not
part of the source tree available here.  Every definition below is
therefore modelled from the specification's wording, and each model is
cross-checked against the concrete input/output expectations the test
suites record.
-/

namespace AemBoilerplate

/-! ## String helpers

Executable prefix/suffix tests over the character lists of strings,
mirroring JavaScript `String.prototype.startsWith` / `endsWith`. -/

/-- Tests whether `p` is an initial segment of `s`
(JavaScript `s.startsWith(p)`). -/
def listBegins : List Char → List Char → Bool
  | _, [] => true
  | [], _ :: _ => false
  | a :: s, b :: p => a == b && listBegins s p

def strBegins (s p : String) : Bool :=
  listBegins s.data p.data

/-- Tests whether `p` is a final segment of `s`
(JavaScript `s.endsWith(p)`). -/
def strEnds (s p : String) : Bool :=
  listBegins s.data.reverse p.data.reverse

/-- Drop the last `n` characters of a string. -/
def dropLast (s : String) (n : Nat) : String :=
  String.mk (s.data.take (s.data.length - n))

/-! ## Fragment loader data model -/

/-- A media reference inside a fetched fragment body: an element tag
(`img` or `source`), the attribute holding the reference (`src` or
`srcset`) and the reference URL itself. -/
structure MediaRef where
  tag : String
  attr : String
  url : String
deriving DecidableEq, Repr

/-- The parsed body of a fetched fragment: its raw text together with
the media references (image sources and source-set entries) it holds. -/
structure Html where
  text : String
  refs : List MediaRef
deriving DecidableEq, Repr

/-- The container element produced by the loader: always tagged `main`,
carrying the fragment body as its inner HTML and the (possibly
rewritten) media references. -/
structure Container where
  tag : String
  innerHTML : String
  refs : List MediaRef
deriving DecidableEq, Repr

/-- Outcome of one mocked `fetch` call: an HTTP response with its `ok`
flag and body, or a rejected promise carrying a transport error. -/
inductive FetchResult where
  | response (ok : Bool) (body : Html)
  | netError (msg : String)
deriving DecidableEq, Repr

/-- Full observable outcome of one `loadFragment` invocation: the URLs
fetched, the containers passed to each collaborator hook, and the
returned value (`Except.error` models a propagated exception, `none`
models a `null` return). -/
structure LoadOutcome where
  fetchCalls : List String
  decorateMainCalls : List Container
  loadSectionsCalls : List Container
  result : Except String (Option Container)
deriving Repr

/-- Modelled from the spec: path normalization for the fragment loader.
"If the path ends with `.plain.html`, use as-is; else if it ends with
`.html`, replace with `.plain.html`; else append `.plain.html`." -/
def normalizePath (s : String) : String :=
  if strEnds s ".plain.html" then s
  else if strEnds s ".html" then dropLast s 5 ++ ".plain.html"
  else s ++ ".plain.html"

/-- Modelled from the spec: the recognizable "media folder" naming
pattern for relative media references (`./media_...`). -/
def isMediaUrl (u : String) : Bool :=
  strBegins u "./media_"

/-- The directory part of a path: every character up to and including
the final `/`. -/
def dirOf (p : String) : String :=
  String.mk ((p.data.reverse.dropWhile (fun c => c ≠ '/')).reverse)

/-- Modelled from the spec: resolving a `./media_...` reference against
the fragment's own path (the `./` is replaced by the fragment's
directory). -/
def resolveMediaUrl (p u : String) : String :=
  dirOf p ++ String.mk (u.data.drop 2)

/-- Modelled from the spec: the media URL rewrite applied to one
reference.  References matching the media-folder pattern are resolved
against the fragment's path; absolute paths and fully-qualified
external URLs are left untouched. -/
def rewriteMediaRef (p : String) (r : MediaRef) : MediaRef :=
  if isMediaUrl r.url then { r with url := resolveMediaUrl p r.url } else r

/-- Modelled from the spec: the fragment loader
(`blocks/fragment/fragment.js`, absent from the source tree; only its
test suite is present).  Given a path (`none` models `null`/`undefined`)
and a mocked `fetch`, it: validates that the path is a non-empty string
starting with `/` (otherwise returns `null` without fetching);
normalizes the path and fetches it; converts a non-ok response into a
`null` result with no hook invoked; propagates a transport error
unchanged; and on success wraps the body in a `main` container, rewrites
the media references against the fragment's path, and passes the
container to `decorateMain` then `loadSections`. -/
def loadFragment (path : Option String) (fetch : String → FetchResult) : LoadOutcome :=
  match path with
  | none => ⟨[], [], [], .ok none⟩
  | some s =>
    if strBegins s "/" then
      let url := normalizePath s
      match fetch url with
      | .netError e => ⟨[url], [], [], .error e⟩
      | .response ok body =>
        if ok then
          let c : Container := ⟨"main", body.text, body.refs.map (rewriteMediaRef s)⟩
          ⟨[url], [c], [c], .ok (some c)⟩
        else
          ⟨[url], [], [], .ok none⟩
    else ⟨[], [], [], .ok none⟩

/-! ## Module state threading

The specification states that the loader keeps no cache and shares no
mutable state across calls.  To be able to state that, we thread an
explicit module-state value (a hypothetical fragment cache) through the
loader: the modelled loader neither reads it nor writes it. -/

/-- A hypothetical module-level fragment cache, threaded through calls
to make the absence of hidden shared state statable. -/
abbrev FragmentCache := List (String × Container)

/-- Modelled from the spec: the loader with the module state made
explicit.  "There is no cache, so repeated calls with the same path
re-fetch and re-rewrite from scratch"; the computation depends only on
its arguments and leaves the module state untouched. -/
def loadFragmentWithState (cache : FragmentCache) (path : Option String)
    (fetch : String → FetchResult) : FragmentCache × LoadOutcome :=
  (cache, loadFragment path fetch)

/-! ## Class-name normalizer (`toClassName` of `scripts/aem.js`) -/

/-- Lowercases an ASCII letter, leaving every other character alone. -/
def lowerChar (c : Char) : Char :=
  if 'A' ≤ c ∧ c ≤ 'Z' then Char.ofNat (c.toNat + 32) else c

/-- Tests membership in `[0-9a-z]`, the characters the normalizer keeps. -/
def isLowerAlnum (c : Char) : Bool :=
  ('a' ≤ c && c ≤ 'z') || ('0' ≤ c && c ≤ '9')

/-- Collapses every run of two or more dashes to a single dash. -/
def collapseDashes : List Char → List Char
  | [] => []
  | [c] => [c]
  | a :: b :: rest =>
    if a = '-' ∧ b = '-' then collapseDashes (b :: rest)
    else a :: collapseDashes (b :: rest)

/-- Removes a leading run of dashes. -/
def dropLeadDashes (l : List Char) : List Char :=
  l.dropWhile (fun c => c = '-')

/-- Removes a trailing run of dashes. -/
def dropTrailDashes : List Char → List Char
  | [] => []
  | c :: rest =>
    let r := dropTrailDashes rest
    if c = '-' ∧ r = [] then [] else c :: r

/-- Modelled from the spec: the class-name normalizer `toClassName` of
`scripts/aem.js` (absent from the source tree; only its test suite is
present).  A non-string input (`null`/`undefined`, modelled as `none`)
yields the empty string; a string is lowercased, every character
outside `[0-9a-z]` becomes a dash, runs of dashes collapse to a single
dash, and leading/trailing dash runs are removed. -/
def toClassName (name : Option String) : String :=
  match name with
  | none => ""
  | some s =>
    String.mk (dropTrailDashes (dropLeadDashes (collapseDashes
      (s.data.map (fun c =>
        let lc := lowerChar c
        if isLowerAlnum lc then lc else '-')))))

/-- Detects two adjacent dashes anywhere in a character list; the
normalizer's output never contains any. -/
def hasAdjacentDashes : List Char → Bool
  | a :: b :: rest => (a = '-' && b = '-') || hasAdjacentDashes (b :: rest)
  | _ => false

/-- Tests whether the last character of a list is a dash. -/
def lastIsDash : List Char → Bool
  | [] => false
  | [c] => c = '-'
  | _ :: b :: rest => lastIsDash (b :: rest)

/-- Tests whether the first character of a list is a dash. -/
def headIsDash : List Char → Bool
  | [] => false
  | c :: _ => c = '-'

/-! ## Attribute migration (`moveAttributes` of `scripts/scripts.js`) -/

/-- A DOM element's attribute map, as an association list from
attribute name to value (attribute names are unique on an element). -/
abbrev Attrs := List (String × String)

/-- Reads an attribute (JavaScript `getAttribute`): the value if
present, else `none` (modelling `null`). -/
def getAttr : Attrs → String → Option String
  | [], _ => none
  | (k, v) :: rest, a => if k = a then some v else getAttr rest a

/-- Writes an attribute (JavaScript `setAttribute`): overwrites an
existing entry, else appends one. -/
def setAttr : Attrs → String → String → Attrs
  | [], a, v => [(a, v)]
  | (k, w) :: rest, a, v =>
    if k = a then (k, v) :: rest else (k, w) :: setAttr rest a v

/-- Deletes an attribute (JavaScript `removeAttribute`). -/
def removeAttr : Attrs → String → Attrs
  | [], _ => []
  | (k, v) :: rest, a =>
    if k = a then removeAttr rest a else (k, v) :: removeAttr rest a

/-- Reads an attribute on a possibly-null element. -/
def optGetAttr (d : Option Attrs) (a : String) : Option String :=
  d.bind (fun e => getAttr e a)

/-- One step of `moveAttributes`: for one attribute name, if the source
currently holds a non-empty value, copy it to the destination (a no-op
when the destination is null) and remove it from the source; otherwise
do nothing. -/
def moveStep (st : Attrs × Option Attrs) (a : String) : Attrs × Option Attrs :=
  match getAttr st.1 a with
  | some v =>
    if v ≠ "" then (removeAttr st.1 a, st.2.map (fun d => setAttr d a v))
    else st
  | none => st

/-- Modelled from the spec: `moveAttributes` of `scripts/scripts.js`
(absent from the source tree; only its test suite is present).  "Copies
every currently present non-empty attribute from source to destination,
removing it from the source; a null destination still clears attributes
from the source (no-op on the destination side)."  When no explicit
name list is given, the names of all attributes currently on the source
are processed. -/
def moveAttributes (src : Attrs) (dst : Option Attrs)
    (names : Option (List String)) : Attrs × Option Attrs :=
  (names.getD (src.map Prod.fst)).foldl moveStep (src, dst)

/-! ## Footer decorator (`blocks/footer/footer.js`) -/

/-- The observable state of the footer block element: its text content
and the markup of its child elements. -/
structure FooterState where
  textContent : String
  children : List String
deriving DecidableEq, Repr

/-- The fragment handed to the footer decorator by the fragment loader,
reduced to the list of its child elements' markup. -/
structure FooterFragment where
  children : List String
deriving DecidableEq, Repr

/-- Modelled from the spec: the footer path computation.  The path is
read from the `footer` metadata entry; an empty entry falls back to
`/footer`, any other entry is resolved to a pathname by the
caller-supplied URL resolution. -/
def footerPath (getMeta : String → String) (resolvePath : String → String) : String :=
  let meta := getMeta "footer"
  if meta = "" then "/footer" else resolvePath meta

/-- Modelled from the spec: the footer decorator of
`blocks/footer/footer.js` (absent from the source tree; only its test
suite is present).  It computes the footer fragment path, clears the
block's content, and only then awaits the fragment load; on success it
appends one wrapper element holding the fragment's children, and on a
rejected load it propagates the error — the block stays cleared (its
test suite pins this ordering: the original content is gone even when
the load fails). -/
def footerDecorate (block : FooterState) (getMeta : String → String)
    (resolvePath : String → String)
    (loadFrag : String → Except String FooterFragment) :
    FooterState × Except String Unit :=
  let path := footerPath getMeta resolvePath
  let cleared : FooterState := { block with textContent := "", children := [] }
  match loadFrag path with
  | .error e => (cleared, .error e)
  | .ok frag =>
    ({ cleared with children := [String.join frag.children] }, .ok ())

/-! ## Helper lemmas -/

theorem listBegins_append (l t : List Char) : listBegins (l ++ t) l = true := by
  induction l with
  | nil => cases t <;> rfl
  | cons a rest ih => simp [listBegins, ih]

theorem strBegins_append_left (x y : String) : strBegins (x ++ y) x = true := by
  have hd : (x ++ y).data = x.data ++ y.data := String.data_append x y
  simp [strBegins, hd, listBegins_append]

/-! ## Fragment loader theorems -/

/-- C1.  For every path argument that is not a string starting with `/`
(covering the empty string, `null`, `undefined` and bare relative
strings), `loadFragment` returns null and performs no fetch call. -/
theorem loadFragment_invalid_path_returns_null (p : Option String)
    (fetch : String → FetchResult)
    (h : ∀ s, p = some s → strBegins s "/" = false) :
    (loadFragment p fetch).result = .ok none ∧
    (loadFragment p fetch).fetchCalls = [] := by
  cases p with
  | none => exact ⟨rfl, rfl⟩
  | some s => simp [loadFragment, h s rfl]

theorem loadFragment_invalid_path_returns_null_witness :
    (loadFragment (some "relative-path") (fun _ => .netError "boom")).result
      = .ok none ∧
    (loadFragment (some "relative-path") (fun _ => .netError "boom")).fetchCalls
      = [] :=
  loadFragment_invalid_path_returns_null (some "relative-path")
    (fun _ => .netError "boom")
    (by intro s hs; cases Option.some.inj hs; decide)

/-- C2.  For every path that passes validation, `loadFragment` performs
exactly one fetch, at the normalized path ("ends with `.plain.html`: use
as-is; ends with `.html`: replace by `.plain.html`; else append
`.plain.html`"); in particular `/test-fragment`, `/test-fragment.html`
and `/test-fragment.plain.html` all normalize to
`/test-fragment.plain.html`. -/
theorem loadFragment_fetches_normalized_path (s : String)
    (fetch : String → FetchResult) (h : strBegins s "/" = true) :
    (loadFragment (some s) fetch).fetchCalls = [normalizePath s] ∧
    normalizePath "/test-fragment" = "/test-fragment.plain.html" ∧
    normalizePath "/test-fragment.html" = "/test-fragment.plain.html" ∧
    normalizePath "/test-fragment.plain.html" = "/test-fragment.plain.html" := by
  refine ⟨?_, by decide, by decide, by decide⟩
  cases hf : fetch (normalizePath s) with
  | netError e => simp [loadFragment, h, hf]
  | response ok body => cases ok <;> simp [loadFragment, h, hf]

theorem loadFragment_fetches_normalized_path_witness :
    (loadFragment (some "/test-fragment")
        (fun _ => .response true ⟨"", []⟩)).fetchCalls
      = [normalizePath "/test-fragment"] ∧
    normalizePath "/test-fragment" = "/test-fragment.plain.html" ∧
    normalizePath "/test-fragment.html" = "/test-fragment.plain.html" ∧
    normalizePath "/test-fragment.plain.html" = "/test-fragment.plain.html" :=
  loadFragment_fetches_normalized_path "/test-fragment"
    (fun _ => .response true ⟨"", []⟩) (by decide)

/-- C3.  For every fetch response whose `ok` flag is false,
`loadFragment` returns null and invokes neither collaborator hook. -/
theorem loadFragment_non_ok_returns_null (s : String)
    (fetch : String → FetchResult) (body : Html)
    (h : strBegins s "/" = true)
    (hf : fetch (normalizePath s) = .response false body) :
    (loadFragment (some s) fetch).result = .ok none ∧
    (loadFragment (some s) fetch).decorateMainCalls = [] ∧
    (loadFragment (some s) fetch).loadSectionsCalls = [] := by
  simp [loadFragment, h, hf]

theorem loadFragment_non_ok_returns_null_witness :
    (loadFragment (some "/non-existent-fragment")
        (fun _ => .response false ⟨"", []⟩)).result = .ok none ∧
    (loadFragment (some "/non-existent-fragment")
        (fun _ => .response false ⟨"", []⟩)).decorateMainCalls = [] ∧
    (loadFragment (some "/non-existent-fragment")
        (fun _ => .response false ⟨"", []⟩)).loadSectionsCalls = [] :=
  loadFragment_non_ok_returns_null "/non-existent-fragment"
    (fun _ => .response false ⟨"", []⟩) ⟨"", []⟩ (by decide) rfl

/-- C4.  For every transport error thrown by `fetch`, `loadFragment`
propagates exactly that error to its caller (no wrapping), performs no
retry (a single fetch call), produces no result, and invokes neither
collaborator hook. -/
theorem loadFragment_transport_error_propagates (s : String)
    (fetch : String → FetchResult) (e : String)
    (h : strBegins s "/" = true)
    (hf : fetch (normalizePath s) = .netError e) :
    (loadFragment (some s) fetch).result = .error e ∧
    (loadFragment (some s) fetch).fetchCalls = [normalizePath s] ∧
    (loadFragment (some s) fetch).decorateMainCalls = [] ∧
    (loadFragment (some s) fetch).loadSectionsCalls = [] := by
  simp [loadFragment, h, hf]

theorem loadFragment_transport_error_propagates_witness :
    (loadFragment (some "/test-fragment")
        (fun _ => .netError "Network error")).result = .error "Network error" ∧
    (loadFragment (some "/test-fragment")
        (fun _ => .netError "Network error")).fetchCalls
      = [normalizePath "/test-fragment"] ∧
    (loadFragment (some "/test-fragment")
        (fun _ => .netError "Network error")).decorateMainCalls = [] ∧
    (loadFragment (some "/test-fragment")
        (fun _ => .netError "Network error")).loadSectionsCalls = [] :=
  loadFragment_transport_error_propagates "/test-fragment"
    (fun _ => .netError "Network error") "Network error" (by decide) rfl

/-- C5.  For every successful fetch, each media reference of the body
matching the recognized media-folder pattern (`./media_...`) is, in the
returned container, resolved against the fragment's own path (its URL
becomes the fragment's directory followed by the media path, so it
begins with the fragment's directory and no caller-page path enters the
computation); every reference not matching the pattern — absolute paths
and fully-qualified external URLs — is left unchanged. -/
theorem loadFragment_media_rewrite (s : String)
    (fetch : String → FetchResult) (body : Html)
    (h : strBegins s "/" = true)
    (hf : fetch (normalizePath s) = .response true body) :
    ∃ c : Container,
      (loadFragment (some s) fetch).result = .ok (some c) ∧
      c.refs.length = body.refs.length ∧
      ∀ i (hib : i < body.refs.length) (hic : i < c.refs.length),
        (isMediaUrl body.refs[i].url = true →
          c.refs[i].url = resolveMediaUrl s body.refs[i].url ∧
          strBegins c.refs[i].url (dirOf s) = true) ∧
        (isMediaUrl body.refs[i].url = false →
          c.refs[i] = body.refs[i]) := by
  refine ⟨⟨"main", body.text, body.refs.map (rewriteMediaRef s)⟩, ?_, by simp, ?_⟩
  · simp [loadFragment, h, hf]
  · intro i hib hic
    constructor
    · intro hm
      refine ⟨by simp [List.getElem_map, rewriteMediaRef, hm], ?_⟩
      simp only [List.getElem_map, rewriteMediaRef, hm, if_true]
      exact strBegins_append_left (dirOf s) _
    · intro hm
      simp [List.getElem_map, rewriteMediaRef, hm]

theorem loadFragment_media_rewrite_witness :
    ∃ c : Container,
      (loadFragment (some "/fragments/test-fragment")
          (fun _ => .response true
            ⟨"", [⟨"img", "src", "./media_123/image1.jpg"⟩,
                  ⟨"img", "src", "https://example.com/external/image.jpg"⟩]⟩)).result
        = .ok (some c) ∧
      c.refs.length = 2 :=
  match loadFragment_media_rewrite "/fragments/test-fragment"
      (fun _ => .response true
        ⟨"", [⟨"img", "src", "./media_123/image1.jpg"⟩,
              ⟨"img", "src", "https://example.com/external/image.jpg"⟩]⟩)
      ⟨"", [⟨"img", "src", "./media_123/image1.jpg"⟩,
            ⟨"img", "src", "https://example.com/external/image.jpg"⟩]⟩
      (by decide) rfl with
  | ⟨c, h1, h2, _⟩ => ⟨c, h1, h2.trans rfl⟩

/-- C6.  With the module state made explicit, two invocations of the
loader with the same path and the same mocked fetch yield structurally
equal outcomes (hence structurally equivalent containers), and the
first call leaves the module state untouched: no hidden shared state is
mutated between the calls. -/
theorem loadFragment_idempotent (cache : FragmentCache) (path : Option String)
    (fetch : String → FetchResult) :
    (loadFragmentWithState (loadFragmentWithState cache path fetch).1
        path fetch).2
      = (loadFragmentWithState cache path fetch).2 ∧
    (loadFragmentWithState cache path fetch).1 = cache :=
  ⟨rfl, rfl⟩

/-- C10.  For a successful fetch whose body is the empty string,
`loadFragment` still returns a `main` container with empty inner HTML
(not null), and still invokes both collaborator hooks with exactly that
container. -/
theorem loadFragment_empty_body_returns_container (s : String)
    (fetch : String → FetchResult)
    (h : strBegins s "/" = true)
    (hf : fetch (normalizePath s) = .response true ⟨"", []⟩) :
    (loadFragment (some s) fetch).result = .ok (some ⟨"main", "", []⟩) ∧
    (loadFragment (some s) fetch).decorateMainCalls = [⟨"main", "", []⟩] ∧
    (loadFragment (some s) fetch).loadSectionsCalls = [⟨"main", "", []⟩] := by
  simp [loadFragment, h, hf]

theorem loadFragment_empty_body_returns_container_witness :
    (loadFragment (some "/empty-fragment")
        (fun _ => .response true ⟨"", []⟩)).result
      = .ok (some ⟨"main", "", []⟩) ∧
    (loadFragment (some "/empty-fragment")
        (fun _ => .response true ⟨"", []⟩)).decorateMainCalls
      = [⟨"main", "", []⟩] ∧
    (loadFragment (some "/empty-fragment")
        (fun _ => .response true ⟨"", []⟩)).loadSectionsCalls
      = [⟨"main", "", []⟩] :=
  loadFragment_empty_body_returns_container "/empty-fragment"
    (fun _ => .response true ⟨"", []⟩) (by decide) rfl

/-! ## Class-name normalizer theorems -/

theorem collapseDashes_head (rest : List Char) :
    ∀ b, ∃ t, collapseDashes (b :: rest) = b :: t := by
  induction rest with
  | nil => intro b; exact ⟨[], rfl⟩
  | cons r1 rest' ih =>
    intro b
    by_cases hb : b = '-' ∧ r1 = '-'
    · obtain ⟨t, ht⟩ := ih r1
      refine ⟨t, ?_⟩
      simp only [collapseDashes, if_pos hb]
      rw [ht, hb.1, hb.2]
    · exact ⟨collapseDashes (r1 :: rest'), by simp only [collapseDashes, if_neg hb]⟩

theorem hasAdjacentDashes_tail (c : Char) (l : List Char)
    (h : hasAdjacentDashes (c :: l) = false) : hasAdjacentDashes l = false := by
  cases l with
  | nil => rfl
  | cons b rest =>
    simp only [hasAdjacentDashes, Bool.or_eq_false_iff] at h
    exact h.2

theorem hasAdjacentDashes_collapseDashes (l : List Char) :
    hasAdjacentDashes (collapseDashes l) = false := by
  induction l with
  | nil => rfl
  | cons a l' ih =>
    cases l' with
    | nil => rfl
    | cons b rest =>
      by_cases hb : a = '-' ∧ b = '-'
      · simpa [collapseDashes, if_pos hb] using ih
      · obtain ⟨t, ht⟩ := collapseDashes_head rest b
        simp only [collapseDashes, if_neg hb, ht]
        rw [ht] at ih
        simp only [hasAdjacentDashes, Bool.or_eq_false_iff]
        refine ⟨?_, ih⟩
        rcases Decidable.not_and_iff_or_not.mp hb with h1 | h1 <;>
          simp [h1]

theorem hasAdjacentDashes_dropLeadDashes (l : List Char)
    (h : hasAdjacentDashes l = false) :
    hasAdjacentDashes (dropLeadDashes l) = false := by
  induction l with
  | nil => rfl
  | cons c l' ih =>
    by_cases hc : c = '-'
    · have := ih (hasAdjacentDashes_tail c l' h)
      simpa [dropLeadDashes, List.dropWhile, hc] using this
    · simpa [dropLeadDashes, List.dropWhile, hc] using h

theorem headIsDash_dropLeadDashes (l : List Char) :
    headIsDash (dropLeadDashes l) = false := by
  induction l with
  | nil => rfl
  | cons c l' ih =>
    by_cases hc : c = '-'
    · simpa [dropLeadDashes, List.dropWhile, hc] using ih
    · simp [dropLeadDashes, List.dropWhile, hc, headIsDash]

theorem dropTrailDashes_cons (c : Char) (rest : List Char) :
    dropTrailDashes (c :: rest) = [] ∨
    dropTrailDashes (c :: rest) = c :: dropTrailDashes rest := by
  by_cases h : c = '-' ∧ dropTrailDashes rest = []
  · left; simp [dropTrailDashes, if_pos h]
  · right; simp [dropTrailDashes, if_neg h]

theorem hasAdjacentDashes_dropTrailDashes (l : List Char)
    (h : hasAdjacentDashes l = false) :
    hasAdjacentDashes (dropTrailDashes l) = false := by
  induction l with
  | nil => rfl
  | cons c rest ih =>
    have ih' := ih (hasAdjacentDashes_tail c rest h)
    rcases dropTrailDashes_cons c rest with hd | hd
    · rw [hd]; rfl
    · rw [hd]
      cases hr : dropTrailDashes rest with
      | nil => rfl
      | cons b t =>
        cases rest with
        | nil => simp [dropTrailDashes] at hr
        | cons rh rt =>
          have hb : b = rh := by
            rcases dropTrailDashes_cons rh rt with h2 | h2
            · rw [h2] at hr; cases hr
            · rw [h2] at hr; exact (List.cons.injEq _ _ _ _ ▸ hr).1.symm
          rw [hr] at ih'
          simp only [hasAdjacentDashes, Bool.or_eq_false_iff]
          refine ⟨?_, ih'⟩
          have hcr : (decide (c = '-') && decide (rh = '-')) = false := by
            have := h
            simp only [hasAdjacentDashes, Bool.or_eq_false_iff] at this
            exact this.1
          rw [hb]
          exact hcr

theorem headIsDash_dropTrailDashes (l : List Char)
    (h : headIsDash l = false) :
    headIsDash (dropTrailDashes l) = false := by
  cases l with
  | nil => rfl
  | cons c rest =>
    rcases dropTrailDashes_cons c rest with hd | hd
    · rw [hd]; rfl
    · rw [hd]; simpa [headIsDash] using h

theorem lastIsDash_dropTrailDashes (l : List Char) :
    lastIsDash (dropTrailDashes l) = false := by
  induction l with
  | nil => rfl
  | cons c rest ih =>
    by_cases hc : c = '-' ∧ dropTrailDashes rest = []
    · simp [dropTrailDashes, if_pos hc, lastIsDash]
    · simp only [dropTrailDashes, if_neg hc]
      cases hr : dropTrailDashes rest with
      | nil =>
        have hcd : ¬ c = '-' := fun hcc => hc ⟨hcc, hr⟩
        simp [lastIsDash, hcd]
      | cons b t =>
        rw [hr] at ih
        simpa [lastIsDash] using ih

/-- C7.  The class-name normalizer maps "Hello World" to "hello-world",
collapses leading and trailing separator runs ("---test---" becomes
"test"), collapses every run of non-alphanumeric characters to a single
separator (so its output never holds two adjacent separators nor a
leading or trailing one, witnessed also by "Special!@#$%Characters"
becoming "special-characters"), and maps null, undefined and the empty
string to the empty string. -/
theorem toClassName_normalizes :
    toClassName (some "Hello World") = "hello-world" ∧
    toClassName (some "---test---") = "test" ∧
    toClassName (some "Special!@#$%Characters") = "special-characters" ∧
    toClassName none = "" ∧
    toClassName (some "") = "" ∧
    ∀ s : String,
      hasAdjacentDashes (toClassName (some s)).data = false ∧
      headIsDash (toClassName (some s)).data = false ∧
      lastIsDash (toClassName (some s)).data = false := by
  refine ⟨by decide, by decide, by decide, rfl, rfl, ?_⟩
  intro s
  refine ⟨?_, ?_, ?_⟩
  · exact hasAdjacentDashes_dropTrailDashes _
      (hasAdjacentDashes_dropLeadDashes _ (hasAdjacentDashes_collapseDashes _))
  · exact headIsDash_dropTrailDashes _ (headIsDash_dropLeadDashes _)
  · exact lastIsDash_dropTrailDashes _

/-! ## Attribute migration theorems -/

theorem getAttr_removeAttr_self (e : Attrs) (a : String) :
    getAttr (removeAttr e a) a = none := by
  induction e with
  | nil => rfl
  | cons p rest ih =>
    obtain ⟨k, v⟩ := p
    by_cases hk : k = a
    · simpa [removeAttr, hk] using ih
    · simp [removeAttr, hk, getAttr, ih]

theorem getAttr_removeAttr_other (e : Attrs) (a b : String) (h : a ≠ b) :
    getAttr (removeAttr e b) a = getAttr e a := by
  have hba : ¬ b = a := fun hh => h hh.symm
  induction e with
  | nil => rfl
  | cons p rest ih =>
    obtain ⟨k, w⟩ := p
    by_cases hk : k = b
    · subst hk
      simp [removeAttr, getAttr, hba, ih]
    · by_cases hka : k = a
      · subst hka
        simp [removeAttr, getAttr, hk]
      · simp [removeAttr, getAttr, hk, hka, ih]

theorem getAttr_setAttr_self (e : Attrs) (a v : String) :
    getAttr (setAttr e a v) a = some v := by
  induction e with
  | nil => simp [setAttr, getAttr]
  | cons p rest ih =>
    obtain ⟨k, w⟩ := p
    by_cases hk : k = a
    · simp [setAttr, hk, getAttr]
    · simp [setAttr, hk, getAttr, ih]

theorem getAttr_setAttr_other (e : Attrs) (a b v : String) (h : a ≠ b) :
    getAttr (setAttr e b v) a = getAttr e a := by
  have hba : ¬ b = a := fun hh => h hh.symm
  induction e with
  | nil => simp [setAttr, getAttr, hba]
  | cons p rest ih =>
    obtain ⟨k, w⟩ := p
    by_cases hk : k = b
    · subst hk
      simp [setAttr, getAttr, hba]
    · by_cases hka : k = a
      · subst hka
        simp [setAttr, getAttr, hk]
      · simp [setAttr, getAttr, hk, hka, ih]

theorem mem_keys_of_getAttr (e : Attrs) (a v : String)
    (h : getAttr e a = some v) : a ∈ e.map Prod.fst := by
  induction e with
  | nil => cases h
  | cons p rest ih =>
    obtain ⟨k, w⟩ := p
    by_cases hk : k = a
    · simp [hk]
    · simp only [getAttr, if_neg hk] at h
      simp [ih h]

theorem moveStep_fst_other (st : Attrs × Option Attrs) (a b : String)
    (h : a ≠ b) : getAttr (moveStep st b).1 a = getAttr st.1 a := by
  simp only [moveStep]
  cases hg : getAttr st.1 b with
  | none => rfl
  | some v =>
    by_cases hv : v = ""
    · simp [hv]
    · simp [hv, getAttr_removeAttr_other st.1 a b h]

theorem moveStep_snd_other (st : Attrs × Option Attrs) (a b : String)
    (h : a ≠ b) : optGetAttr (moveStep st b).2 a = optGetAttr st.2 a := by
  simp only [moveStep]
  cases hg : getAttr st.1 b with
  | none => rfl
  | some v =>
    by_cases hv : v = ""
    · simp [hv]
    · cases hd : st.2 with
      | none => simp [hv, hd, optGetAttr]
      | some d => simp [hv, hd, optGetAttr, getAttr_setAttr_other d a b v h]

theorem moveStep_snd_none (st : Attrs × Option Attrs) (b : String)
    (h : st.2 = none) : (moveStep st b).2 = none := by
  simp only [moveStep]
  cases hg : getAttr st.1 b with
  | none => exact h
  | some v =>
    by_cases hv : v = ""
    · simp [hv, h]
    · simp [hv, h]

theorem moveStep_snd_some (st : Attrs × Option Attrs) (b : String) (d : Attrs)
    (h : st.2 = some d) : ∃ d', (moveStep st b).2 = some d' := by
  simp only [moveStep]
  cases hg : getAttr st.1 b with
  | none => exact ⟨d, h⟩
  | some v =>
    by_cases hv : v = ""
    · simp only [hv]
      exact ⟨d, by simp [h]⟩
    · simp [hv, h]

theorem fold_fst_notmem (ns : List String) (st : Attrs × Option Attrs)
    (a : String) (h : a ∉ ns) :
    getAttr (ns.foldl moveStep st).1 a = getAttr st.1 a := by
  induction ns generalizing st with
  | nil => rfl
  | cons b rest ih =>
    have hab : a ≠ b := fun hh => h (hh ▸ List.mem_cons_self b rest)
    rw [List.foldl_cons, ih _ (fun hm => h (List.mem_cons_of_mem b hm)),
      moveStep_fst_other st a b hab]

theorem fold_snd_notmem (ns : List String) (st : Attrs × Option Attrs)
    (a : String) (h : a ∉ ns) :
    optGetAttr (ns.foldl moveStep st).2 a = optGetAttr st.2 a := by
  induction ns generalizing st with
  | nil => rfl
  | cons b rest ih =>
    have hab : a ≠ b := fun hh => h (hh ▸ List.mem_cons_self b rest)
    rw [List.foldl_cons, ih _ (fun hm => h (List.mem_cons_of_mem b hm)),
      moveStep_snd_other st a b hab]

theorem fold_snd_none (ns : List String) (st : Attrs × Option Attrs)
    (h : st.2 = none) : (ns.foldl moveStep st).2 = none := by
  induction ns generalizing st with
  | nil => exact h
  | cons b rest ih => exact ih _ (moveStep_snd_none st b h)

theorem fold_processes (ns : List String) (st : Attrs × Option Attrs)
    (a v : String) (hmem : a ∈ ns) (hnd : ns.Nodup)
    (hget : getAttr st.1 a = some v) (hv : v ≠ "") :
    getAttr (ns.foldl moveStep st).1 a = none ∧
    (∀ d, st.2 = some d → ∃ d', (ns.foldl moveStep st).2 = some d' ∧
      getAttr d' a = some v) := by
  induction ns generalizing st with
  | nil => cases hmem
  | cons b rest ih =>
    rcases List.mem_cons.mp hmem with rfl | hmem'
    · have hstep : moveStep st a
          = (removeAttr st.1 a, st.2.map (fun d => setAttr d a v)) := by
        simp [moveStep, hget, hv]
      have hnotin : a ∉ rest := (List.nodup_cons.mp hnd).1
      rw [List.foldl_cons, hstep]
      constructor
      · rw [fold_fst_notmem rest _ a hnotin]
        exact getAttr_removeAttr_self st.1 a
      · intro d hd
        rw [hd]
        simp only [Option.map_some']
        have hsnd := fold_snd_notmem rest
          (removeAttr st.1 a, some (setAttr d a v)) a hnotin
        simp only [optGetAttr, Option.some_bind] at hsnd
        rw [getAttr_setAttr_self] at hsnd
        cases hres : (rest.foldl moveStep
            (removeAttr st.1 a, some (setAttr d a v))).2 with
        | none => rw [hres] at hsnd; cases hsnd
        | some d' =>
          rw [hres] at hsnd
          simp only [Option.some_bind] at hsnd
          exact ⟨d', rfl, hsnd⟩
    · have hab : a ≠ b := by
        rintro rfl
        exact (List.nodup_cons.mp hnd).1 hmem'
      rw [List.foldl_cons]
      have hget2 : getAttr (moveStep st b).1 a = some v := by
        rw [moveStep_fst_other st a b hab]; exact hget
      have ihres := ih (moveStep st b) hmem' (List.nodup_cons.mp hnd).2 hget2
      refine ⟨ihres.1, ?_⟩
      intro d hd
      obtain ⟨d2, hd2⟩ := moveStep_snd_some st b d hd
      exact ihres.2 d2 hd2

/-- C8.  With all attribute names processed, `moveAttributes` moves
every currently present non-empty attribute: the attribute ends up on
the destination with its value and is removed from the source; with a
null destination the attribute is still cleared from the source, the
destination side is a no-op, and no exception is raised (the function
is total and returns normally). -/
theorem moveAttributes_moves_nonempty (src dst : Attrs) (a v : String)
    (hnd : (src.map Prod.fst).Nodup)
    (hget : getAttr src a = some v) (hv : v ≠ "") :
    getAttr (moveAttributes src (some dst) none).1 a = none ∧
    (∃ d', (moveAttributes src (some dst) none).2 = some d' ∧
      getAttr d' a = some v) ∧
    getAttr (moveAttributes src none none).1 a = none ∧
    (moveAttributes src none none).2 = none := by
  have hmem : a ∈ src.map Prod.fst := mem_keys_of_getAttr src a v hget
  have hsome := fold_processes (src.map Prod.fst) (src, some dst) a v hmem hnd hget hv
  have hnone := fold_processes (src.map Prod.fst) (src, none) a v hmem hnd hget hv
  refine ⟨hsome.1, hsome.2 dst rfl, hnone.1, ?_⟩
  exact fold_snd_none (src.map Prod.fst) (src, none) rfl

theorem moveAttributes_moves_nonempty_witness :
    getAttr (moveAttributes [("class", "test-class"), ("id", "test-id")]
        (some []) none).1 "class" = none ∧
    (∃ d', (moveAttributes [("class", "test-class"), ("id", "test-id")]
        (some []) none).2 = some d' ∧
      getAttr d' "class" = some "test-class") ∧
    getAttr (moveAttributes [("class", "test-class"), ("id", "test-id")]
        none none).1 "class" = none ∧
    (moveAttributes [("class", "test-class"), ("id", "test-id")]
        none none).2 = none :=
  moveAttributes_moves_nonempty [("class", "test-class"), ("id", "test-id")]
    [] "class" "test-class" (by decide) (by decide) (by decide)

/-! ## Footer decorator theorem -/

/-- C9.  When the fragment load rejects, the footer decorator
propagates exactly that error to its caller, and the footer block has
already been cleared: its text content is empty and it has no children
left, so the block's original state is not preserved on error. -/
theorem footerDecorate_error_clears_block (block : FooterState)
    (getMeta resolvePath : String → String)
    (loadFrag : String → Except String FooterFragment) (e : String)
    (hf : loadFrag (footerPath getMeta resolvePath) = .error e) :
    footerDecorate block getMeta resolvePath loadFrag
      = (⟨"", []⟩, .error e) := by
  simp [footerDecorate, hf]

theorem footerDecorate_error_clears_block_witness :
    footerDecorate ⟨"Original footer content", ["<p>old</p>"]⟩
        (fun _ => "/footer") id
        (fun _ => .error "Failed to load fragment")
      = (⟨"", []⟩, .error "Failed to load fragment") :=
  footerDecorate_error_clears_block
    ⟨"Original footer content", ["<p>old</p>"]⟩
    (fun _ => "/footer") id
    (fun _ => .error "Failed to load fragment") "Failed to load fragment" rfl

end AemBoilerplate
